import Mathlib

/-!
Verification development for the trustquery-draw text-to-graph compiler.

The definitions below are a shallow embedding of the JavaScript pipeline:
`SyntaxManager.parse` and its helpers `CommandHandler`, `QuotedStringParser`,
`EdgeSyntaxParser`, `NodeBuilder`, `EdgeBuilder` and `IDManager`.  Strings are
modelled as `List Char` (ASCII semantics for `trim`, `toLowerCase`, `\w`, `\s`);
JavaScript `Map`s are modelled as insertion-ordered association lists, matching
JS `Map` iteration order; regular expressions are replaced by equivalent
deterministic scanners (each one is derived from the concrete pattern in the
source and justified in its doc comment).
-/

namespace TQDraw

/-- Strings are modelled as lists of characters. -/
abbrev Str := List Char

/-- JS whitespace test (ASCII part): space, tab, newline, carriage return,
vertical tab, form feed.  Used for `String.trim`, `\s` and `\S`. -/
def jsIsSpace (c : Char) : Bool :=
  c == ' ' || c == '\t' || c == '\n' || c == '\r' ||
  c == Char.ofNat 11 || c == Char.ofNat 12

/-- JS `String.prototype.trim`: drop whitespace from both ends. -/
def jsTrim (s : Str) : Str :=
  ((s.dropWhile jsIsSpace).reverse.dropWhile jsIsSpace).reverse

/-- JS `toLowerCase`, restricted to ASCII letters (the only case relevant to
the shape keywords and node-id comparisons in the source). -/
def jsToLowerChar (c : Char) : Char :=
  if 'A' ≤ c ∧ c ≤ 'Z' then Char.ofNat (c.toNat + 32) else c

/-- Character-wise lowercase of a modelled string. -/
def jsToLower (s : Str) : Str := s.map jsToLowerChar

/-- JS `String.prototype.split(sep)` for a one-character separator.
`"".split(sep)` is `[""]`; empty pieces are kept. -/
def jsSplit (sep : Char) : Str → List Str
  | [] => [[]]
  | c :: rest =>
    match jsSplit sep rest with
    | [] => [[]]
    | p :: ps => if c = sep then [] :: p :: ps else (c :: p) :: ps

/-- JS `Array.prototype.join(sep)` for a one-character separator. -/
def joinSep (sep : Char) (xs : List Str) : Str :=
  List.intercalate [sep] xs

/-- JS `Map.prototype.get` on an insertion-ordered association list. -/
def jsMapGet [DecidableEq α] (m : List (α × β)) (k : α) : Option β :=
  (m.find? (fun p => decide (p.1 = k))).map Prod.snd

/-- JS `Map.prototype.set`: overwrite in place if the key exists (keeping its
position, as JS `Map` does), otherwise append. -/
def jsMapSet [DecidableEq α] (m : List (α × β)) (k : α) (v : β) : List (α × β) :=
  match m with
  | [] => [(k, v)]
  | (k', v') :: rest => if k' = k then (k, v) :: rest else (k', v') :: jsMapSet rest k v

/-- JS `String.prototype.replace` with a *string* pattern: replace the first
occurrence only (an empty pattern matches at position 0, as in JS). -/
def replaceFirst (pat rep : Str) : Str → Str
  | [] => if pat = [] then rep else []
  | c :: rest =>
    if pat.isPrefixOf (c :: rest) then rep ++ (c :: rest).drop pat.length
    else c :: replaceFirst pat rep rest

/-- Decimal digit test (`\d` and the digits accepted by `parseInt`). -/
def isDecDigit (c : Char) : Bool := '0' ≤ c && c ≤ '9'

/-- Hexadecimal digit test (for `parseInt`'s `0x` prefix handling). -/
def isHexDigit (c : Char) : Bool :=
  isDecDigit c || ('a' ≤ c && c ≤ 'f') || ('A' ≤ c && c ≤ 'F')

/-- Numeric value of a digit character (decimal or hex). -/
def digitVal (c : Char) : Nat :=
  if isDecDigit c then c.toNat - '0'.toNat
  else if 'a' ≤ c && c ≤ 'f' then c.toNat - 'a'.toNat + 10
  else if 'A' ≤ c && c ≤ 'F' then c.toNat - 'A'.toNat + 10
  else 0

/-- Value of a digit string in the given base (most significant first). -/
def digitsToNat (base : Nat) (ds : Str) : Nat :=
  ds.foldl (fun a c => a * base + digitVal c) 0

/-- JS `parseInt(s)` (no explicit radix): skip leading whitespace, optional
sign, optional `0x`/`0X` hex prefix, then the longest run of digits; `none`
models `NaN`. -/
def jsParseInt (s : Str) : Option Int :=
  let s1 := s.dropWhile jsIsSpace
  let signed : Bool × Str :=
    match s1 with
    | '-' :: r => (true, r)
    | '+' :: r => (false, r)
    | _ => (false, s1)
  let core : Option Nat :=
    match signed.2 with
    | '0' :: 'x' :: r =>
      let ds := r.takeWhile isHexDigit
      if ds = [] then none else some (digitsToNat 16 ds)
    | '0' :: 'X' :: r =>
      let ds := r.takeWhile isHexDigit
      if ds = [] then none else some (digitsToNat 16 ds)
    | other =>
      let ds := other.takeWhile isDecDigit
      if ds = [] then none else some (digitsToNat 10 ds)
  core.map (fun n => if signed.1 then -(n : Int) else (n : Int))

/-- Decimal rendering of a natural number, with explicit fuel so that the
definition is structural (`fuel > n` renders `n` completely). -/
def natToStrAux : Nat → Nat → Str
  | 0, _ => []
  | fuel + 1, n =>
    if n < 10 then [Char.ofNat ('0'.toNat + n)]
    else natToStrAux fuel (n / 10) ++ [Char.ofNat ('0'.toNat + n % 10)]

/-- JS `parseInt(s, 10)` (explicit radix 10, as in `CommandHandler.findNode`):
skip leading whitespace, optional sign, then the longest run of decimal
digits; no hex-prefix handling; `none` models `NaN`. -/
def jsParseInt10 (s : Str) : Option Int :=
  let s1 := s.dropWhile jsIsSpace
  let signed : Bool × Str :=
    match s1 with
    | '-' :: r => (true, r)
    | '+' :: r => (false, r)
    | _ => (false, s1)
  let ds := signed.2.takeWhile isDecDigit
  if ds = [] then none
  else some (if signed.1 then -(digitsToNat 10 ds : Int) else (digitsToNat 10 ds : Int))

/-- JS `String(n)` for a natural number. -/
def natToStr (n : Nat) : Str := natToStrAux (n + 1) n

/-- JS `String(n)` for an integer. -/
def intToStr (n : Int) : Str :=
  match n with
  | .ofNat m => natToStr m
  | .negSucc m => '-' :: natToStr (m + 1)

/-! ### QuotedStringParser (src QuotedStringParser.js) -/

/-- The placeholder generated for the `n`-th quoted span:
`this.placeholderPrefix + counter`, i.e. `__QUOTED_<n>` (no trailing
underscores in the source). -/
def phName (n : Nat) : Str := "__QUOTED_".toList ++ natToStr n

/-- Scanner for `extractQuotedStrings`'s regex replace with `/"([^"]*)"/g`:
each `"` pairs with the next `"` (the class `[^"]*` matches newlines); a
closing-quote-less `"` is left literal.  Returns the masked text and the
placeholder→content map, in insertion order.  Fuel-structural; fuel of
`length + 1` is enough since every step consumes at least one character. -/
def extractQSGo : Nat → Nat → Str → Str × List (Str × Str)
  | 0, _, s => (s, [])
  | fuel + 1, counter, s =>
    match s with
    | [] => ([], [])
    | c :: rest =>
      if c = '"' then
        let content := rest.takeWhile (fun x => !(x == '"'))
        let after := rest.drop content.length
        if after.head? = some '"' then
          let r := extractQSGo fuel (counter + 1) after.tail
          (phName counter ++ r.1, (phName counter, content) :: r.2)
        else (c :: rest, [])
      else
        let r := extractQSGo fuel counter rest
        (c :: r.1, r.2)

/-- `QuotedStringParser.extractQuotedStrings`: mask every `"..."` span by a
fresh placeholder (counter reset to 0 on each call, as in the source). -/
def extractQuotedStrings (input : Str) : Str × List (Str × Str) :=
  extractQSGo (input.length + 1) 0 input

/-- `QuotedStringParser.restoreQuotedStrings`: for each recorded placeholder
in insertion order, replace its first occurrence by the original content. -/
def restoreQuotedStrings (qmap : List (Str × Str)) (text : Str) : Str :=
  qmap.foldl (fun acc p => replaceFirst p.1 p.2 acc) text

/-! ### EdgeSyntaxParser (arrow tokenizer) -/

/-- Arrow direction, as in the source's `direction` strings. -/
inductive Direction where
  | forward
  | backward
  | bidirectional
deriving DecidableEq, Repr

/-- One arrow occurrence (`{index, length, direction, edgeLabel}`). -/
structure Arrow where
  index : Nat
  length : Nat
  direction : Direction
  edgeLabel : Option Str
deriving DecidableEq, Repr

/-- Match of the source's arrow regex (alternatives, in order: bidirectional
with label `<-label->`, bidirectional `<->`, forward with label `-label->`,
forward `->`, backward `<-`) at the start of `s`.  The two labeled
alternatives are deterministic despite the greedy groups: the group classes
exclude `>` (resp. `-`, `<`, `>`), so the closing `->` can only sit at the end
of the maximal run (for `<-label->`, with the `-` as the run's last char). -/
def matchArrowAt (s : Str) : Option (Direction × Option Str × Nat) :=
  match s with
  | '<' :: '-' :: rest =>
    let run := rest.takeWhile (fun c => !(c == '<') && !(c == '>'))
    if 2 ≤ run.length ∧ run.getLast? = some '-' ∧ (rest.drop run.length).head? = some '>' then
      some (.bidirectional, some (jsTrim run.dropLast), run.length + 3)
    else if rest.head? = some '>' then
      some (.bidirectional, none, 3)
    else
      some (.backward, none, 2)
  | '-' :: rest =>
    let run := rest.takeWhile (fun c => !(c == '-') && !(c == '<') && !(c == '>'))
    if 1 ≤ run.length ∧ (rest.drop run.length).head? = some '-'
        ∧ (rest.drop (run.length + 1)).head? = some '>' then
      some (.forward, some (jsTrim run), run.length + 3)
    else if rest.head? = some '>' then
      some (.forward, none, 2)
    else
      none
  | _ => none

/-- The `exec` loop of `EdgeSyntaxParser.findArrows`: scan left to right,
taking the earliest match and resuming right after it. -/
def findArrowsGo : Nat → Nat → Str → List Arrow
  | 0, _, _ => []
  | fuel + 1, i, s =>
    match matchArrowAt s with
    | some (d, lbl, len) =>
      { index := i, length := len, direction := d, edgeLabel := lbl }
        :: findArrowsGo fuel (i + len) (s.drop len)
    | none =>
      match s with
      | [] => []
      | _ :: t => findArrowsGo fuel (i + 1) t

/-- `EdgeSyntaxParser.findArrows`. -/
def findArrows (line : Str) : List Arrow := findArrowsGo (line.length + 1) 0 line

/-- Loop body of `EdgeSyntaxParser.extractNodeLabels`: the trimmed text before
each arrow, plus the trimmed text after the last arrow; empty pieces are
dropped. -/
def extractNodeLabelsGo (line : Str) : Nat → List Arrow → List Str
  | _, [] => []
  | lastIndex, a :: rest =>
    let seg := jsTrim ((line.drop lastIndex).take (a.index - lastIndex))
    let before := if seg = [] then [] else [seg]
    match rest with
    | [] =>
      let fin := jsTrim (line.drop (a.index + a.length))
      before ++ (if fin = [] then [] else [fin])
    | _ :: _ => before ++ extractNodeLabelsGo line (a.index + a.length) rest

/-- `EdgeSyntaxParser.extractNodeLabels`. -/
def extractNodeLabels (line : Str) (arrows : List Arrow) : List Str :=
  match arrows with
  | [] => []
  | _ :: _ => extractNodeLabelsGo line 0 arrows

/-! ### IDManager (src IDManager.js) -/

/-- The session-scoped identifier manager: two aligned maps and a counter. -/
structure IDManager where
  nodeIdToNumber : List (Str × Nat)
  numberToNodeId : List (Nat × Str)
  nextId : Nat
deriving DecidableEq, Repr

/-- The constructor state: empty maps, counter at 1 (also the state after
`clear()`). -/
def IDManager.empty : IDManager := ⟨[], [], 1⟩

/-- `IDManager.assignId`: return the existing id, or assign `nextId`, record
it in both maps and bump the counter. -/
def assignId (m : IDManager) (nodeLabel : Str) : Nat × IDManager :=
  match jsMapGet m.nodeIdToNumber nodeLabel with
  | some id => (id, m)
  | none =>
    let numericId := m.nextId
    (numericId,
      { nodeIdToNumber := jsMapSet m.nodeIdToNumber nodeLabel numericId
        numberToNodeId := jsMapSet m.numberToNodeId numericId nodeLabel
        nextId := m.nextId + 1 })

/-- Lookup in `numberToNodeId` by the (possibly negative) integer produced by
`parseInt`; a negative key is never present. -/
def intLookup (m : List (Nat × Str)) (n : Int) : Option Str :=
  match n with
  | .ofNat k => jsMapGet m k
  | .negSucc _ => none

/-- `IDManager.resolveReference`: a ref starting with `:` is parsed by the
radix-free `parseInt` and looked up in `numberToNodeId`; the source then
throws on the falsy test `!nodeLabel`, which fires both when the id is
unmapped (`undefined`) and when it is mapped to the empty string — the
embedding keeps both error paths, with the source's one message.  Any other
ref is returned unchanged.  The method only reads the manager, which the
embedding reflects by not returning a state. -/
def resolveReference (m : IDManager) (ref : Str) : Except Str Str :=
  match ref with
  | ':' :: rest =>
    match jsParseInt rest with
    | none => .error ("Invalid ID reference: ".toList ++ ref)
    | some n =>
      match intLookup m.numberToNodeId n with
      | none => .error ("Node with ID ".toList ++ intToStr n ++ " not found".toList)
      | some l =>
        if l = [] then .error ("Node with ID ".toList ++ intToStr n ++ " not found".toList)
        else .ok l
  | _ => .ok ref

/-! ### NodeBuilder and EdgeBuilder (src NodeBuilder.js, EdgeBuilder.js) -/

/-- A value that `this.shapeKeywords[lowerLabel] || 'rectangle'` can produce:
one of the object's own string values (or the `'rectangle'` default), or the
truthy non-string member that a plain `obj[key]` read inherits from
`Object.prototype` when `key` is one of its property names. -/
inductive NodeType where
  | str (s : Str)
  | protoMember (key : Str)
deriving DecidableEq, Repr

/-- A parsed node (`{id, label, type, numericId}`). -/
structure Node where
  id : Str
  label : Str
  type : NodeType
  numericId : Option Nat
deriving DecidableEq, Repr

/-- The `shapeKeywords` table of `NodeBuilder` (identity map on the four
reserved keywords), own keys only. -/
def shapeKeywordFor (s : Str) : Option Str :=
  if s = "circle".toList then some ("circle".toList)
  else if s = "square".toList then some ("square".toList)
  else if s = "rectangle".toList then some ("rectangle".toList)
  else if s = "diamond".toList then some ("diamond".toList)
  else none

/-- The property names of `Object.prototype`, every one of which holds a
truthy (function or object) value that a plain `obj[key]` read reaches when
`key` is not an own key of the object literal. -/
def objectProtoKeys : List Str :=
  ["constructor".toList, "hasOwnProperty".toList, "isPrototypeOf".toList,
   "propertyIsEnumerable".toList, "toLocaleString".toList, "toString".toList,
   "valueOf".toList, "__proto__".toList, "__defineGetter__".toList,
   "__defineSetter__".toList, "__lookupGetter__".toList, "__lookupSetter__".toList]

/-- `this.shapeKeywords[lowerLabel] || 'rectangle'` applied to the trimmed
label: lowercase, look up the keyword table; a miss continues up the
prototype chain (truthy inherited members survive the `||`), and only a true
`undefined` falls back to `rectangle`. -/
def detectShapeType (trimmed : Str) : NodeType :=
  match shapeKeywordFor (jsToLower trimmed) with
  | some t => .str t
  | none =>
    if jsToLower trimmed ∈ objectProtoKeys then .protoMember (jsToLower trimmed)
    else .str ("rectangle".toList)

/-- A parsed edge (`{id, source, target, label}`). -/
structure Edge where
  id : Str
  source : Str
  target : Str
  label : Option Str
deriving DecidableEq, Repr

/-- `EdgeBuilder.createEdge`: append one edge whose id is
`source-target-<current edge count>`. -/
def createEdge (edges : List Edge) (source target : Str) (label : Option Str) : List Edge :=
  edges ++ [{ id := source ++ "-".toList ++ target ++ "-".toList ++ natToStr edges.length
              source := source
              target := target
              label := label }]

/-- The per-direction edge construction of one loop iteration of
`createEdgesFromArrows`. -/
def addArrowEdges (edges : List Edge) (a : Arrow) (s t : Str) : List Edge :=
  match a.direction with
  | .forward => createEdge edges s t a.edgeLabel
  | .backward => createEdge edges t s a.edgeLabel
  | .bidirectional => createEdge (createEdge edges s t a.edgeLabel) t s a.edgeLabel

/-- `EdgeBuilder.createEdgesFromArrows`: for arrow `i`, pair `nodeNames[i]`
with `nodeNames[i+1]`; a missing or empty (falsy) name skips that arrow but
the loop continues. -/
def createEdgesFromArrows (edges : List Edge) : List Arrow → List Str → List Edge
  | [], _ => edges
  | a :: rest, names =>
    let edges' :=
      match names with
      | n1 :: n2 :: _ => if n1 = [] ∨ n2 = [] then edges else addArrowEdges edges a n1 n2
      | _ => edges
    createEdgesFromArrows edges' rest names.tail

/-- The mutable state of one parse pass: the session `IDManager` plus the
per-parse node map (a JS `Map` keyed by label), the node order, and the edge
list. -/
structure PState where
  idm : IDManager
  nodes : List (Str × Node)
  nodeOrder : List Str
  edges : List Edge
deriving DecidableEq, Repr

/-- `NodeBuilder.ensureNode` of the live pipeline (src NodeBuilder.js): trim,
infer the shape type from the label text, and if the trimmed label is new,
assign a numeric id and record the node.  Note: this version performs no
resolution of labels that start with a colon. -/
def ensureNode (st : PState) (label : Str) : Str × PState :=
  let trimmed := jsTrim label
  let type := detectShapeType trimmed
  match jsMapGet st.nodes trimmed with
  | some _ => (trimmed, st)
  | none =>
    let r := assignId st.idm trimmed
    let node : Node := { id := trimmed, label := trimmed, type := type, numericId := some r.1 }
    (trimmed,
      { st with
          idm := r.2
          nodes := jsMapSet st.nodes trimmed node
          nodeOrder := st.nodeOrder ++ [trimmed] })

/-- `restoredLabels.map(label => this.nodeBuilder.ensureNode(label))`:
stateful map of `ensureNode` over a list of labels. -/
def ensureNodes (st : PState) : List Str → List Str × PState
  | [] => ([], st)
  | l :: rest =>
    let r1 := ensureNode st l
    let r2 := ensureNodes r1.2 rest
    (r1.1 :: r2.1, r2.2)

/-! ### CommandHandler (src CommandHandler.js) -/

/-- A detected command, as a tagged variant of the source's command objects
(`rename`, `layout`, `openStyleInspector`), each carrying `rawCommand`. -/
inductive Command where
  | rename (oldId newLabel : Str) (rawCommand : Str)
  | layout (layoutType : Str) (rawCommand : Str)
  | openStyleInspector (nodeId params : Str) (rawCommand : Str)
deriving DecidableEq, Repr

/-- Word-character test (the regex class of word characters). -/
def isWordChar (c : Char) : Bool :=
  ('a' ≤ c && c ≤ 'z') || ('A' ≤ c && c ≤ 'Z') || isDecDigit c || c == '_'

/-- Match of the anchored `equalsCommandPattern` — an equals sign, a nonempty
run of word characters, optional whitespace, then a parenthesized argument
text without a closing parenthesis inside, with the closing parenthesis as
the last character.  Deterministic because word characters, whitespace and
the opening parenthesis are disjoint classes.  Returns (name, argsString). -/
def matchEqualsCmd (s : Str) : Option (Str × Str) :=
  match s with
  | '=' :: rest =>
    let name := rest.takeWhile isWordChar
    if name = [] then none
    else
      match (rest.drop name.length).dropWhile jsIsSpace with
      | '(' :: r2 =>
        let args := r2.takeWhile (fun c => !(c == ')'))
        match r2.drop args.length with
        | [')'] => some (name, args)
        | _ => none
      | _ => none
  | _ => none

/-- Match of the anchored `atCommandPattern` — `@`, a nonempty run of
non-whitespace characters, then the rest of the line.  Because the dot of the
pattern does not match line terminators, a string containing one never
matches.  Returns (nodeId, trimmed params). -/
def atCommandMatch (trimmed : Str) : Option (Str × Str) :=
  match trimmed with
  | '@' :: rest =>
    if rest.any (fun c => c == '\n' || c == '\r') then none
    else
      let nodeId := rest.takeWhile (fun c => !(jsIsSpace c))
      if nodeId = [] then none
      else some (nodeId, jsTrim (rest.drop nodeId.length))
  | _ => none

/-- The at-pattern branch of `detectCommand`, applied to the trimmed line. -/
def atBranch (trimmed : Str) : Option Command :=
  match atCommandMatch trimmed with
  | some r => some (.openStyleInspector r.1 r.2 trimmed)
  | none => none

/-- Argument-list handling of the equals pattern: split on commas, trim each
argument. -/
def eqArgs (argsString : Str) : List Str := (jsSplit ',' argsString).map jsTrim

/-- `CommandHandler.detectCommand`: try the equals pattern first; a matched
name of `rename` or `layout` yields that command (with `newLabel` defaulting
to empty and `layoutType` defaulting to `tree`); any other equals-match falls
through to the at-pattern check, exactly as in the source. -/
def detectCommand (input : Str) : Option Command :=
  match matchEqualsCmd (jsTrim input) with
  | some r =>
    if r.1 = "rename".toList then
      some (.rename ((eqArgs r.2).headD []) (((eqArgs r.2).drop 1).headD []) (jsTrim input))
    else if r.1 = "layout".toList then
      some (.layout (if (eqArgs r.2).headD [] = [] then "tree".toList else (eqArgs r.2).headD [])
        (jsTrim input))
    else atBranch (jsTrim input)
  | none => atBranch (jsTrim input)

/-- The `forEach` loop of `CommandHandler.extractCommand`: partition the lines
into detected commands and pass-through lines, both in original order. -/
def extractCommandGo : List Str → List Command × List Str
  | [] => ([], [])
  | l :: rest =>
    let r := extractCommandGo rest
    match detectCommand l with
    | some c => (c :: r.1, r.2)
    | none => (r.1, l :: r.2)

/-- `CommandHandler.extractCommand`: split on newlines, detect per line,
rejoin the non-command lines. -/
def extractCommand (input : Str) : List Command × Str :=
  let r := extractCommandGo (jsSplit '\n' input)
  (r.1, joinSep '\n' r.2)

/-- The node shape read by `CommandHandler.findNode` at execution time: the
ReactFlow id and the optional `data.nodeNumber` field. -/
structure UINode where
  id : Str
  dataNodeNumber : Option Int
deriving DecidableEq, Repr

/-- Case-insensitive id lookup (the second branch of `findNode`). -/
def findById (nodeId : Str) (nodes : List UINode) : Option UINode :=
  let lower := jsToLower nodeId
  nodes.find? (fun node => decide (jsToLower node.id = lower))

/-- `CommandHandler.findNode`: a `:`-ref whose remainder parses under
`parseInt(…, 10)` is looked up by `data.nodeNumber` (and that result is
returned even when `none`); a `:`-ref whose remainder is NaN falls through to
the case-insensitive id match, as in the source. -/
def findNode (nodeId : Str) (nodes : List UINode) : Option UINode :=
  match nodeId with
  | ':' :: rest =>
    match jsParseInt10 rest with
    | some n => nodes.find? (fun node => decide (node.dataNodeNumber = some n))
    | none => findById nodeId nodes
  | _ => findById nodeId nodes

/-- The style map produced by `parseStyleParams`. -/
structure StyleMap where
  backgroundColor : Option Str
  borderColor : Option Str
  borderWidth : Option Nat
deriving DecidableEq, Repr

/-- The characters of the style-value class (`#` or a word character). -/
def isStyleValChar (c : Char) : Bool := c == '#' || isWordChar c

/-- Search for `key` followed by optional whitespace and a nonempty run of
`pred` characters, scanning left to right (the leftmost position where the
whole pattern matches wins, as for an unanchored regex). -/
def searchKeyVal (key : Str) (pred : Char → Bool) : Nat → Str → Option Str
  | 0, _ => none
  | fuel + 1, s =>
    (if key.isPrefixOf s then
      let r := ((s.drop key.length).dropWhile jsIsSpace).takeWhile pred
      if r = [] then none else some r
    else none).orElse (fun _ =>
      match s with
      | [] => none
      | _ :: t => searchKeyVal key pred fuel t)

/-- `CommandHandler.parseStyleParams`: extract `fill:`, `border:` and
`width:` values. -/
def parseStyleParams (params : Str) : StyleMap :=
  { backgroundColor := searchKeyVal ("fill:".toList) isStyleValChar (params.length + 1) params
    borderColor := searchKeyVal ("border:".toList) isStyleValChar (params.length + 1) params
    borderWidth := (searchKeyVal ("width:".toList) isDecDigit (params.length + 1) params).map
      (digitsToNat 10) }

/-- One observable callback invocation of `executeCommand`.  The embedding
instruments the execution as the list of callback calls made, in order,
assuming every callback of the options bag is supplied; error events carry
the message text. -/
inductive CbEvent where
  | selectNode (id : Str)
  | applyStyle (id : Str) (styles : StyleMap)
  | openStyleInspector (id : Str)
  | renameNode (id : Str) (newLabel : Str)
  | applyLayout (layoutType : Str) (nodes : List UINode)
  | error (msg : Str)
deriving DecidableEq, Repr

/-- The single-quote character (written by code point to build the error
message text). -/
def squote : Char := Char.ofNat 39

/-- The not-found message of the execute functions: the source interpolates
the ref between single quotes, Node <quote><ref><quote> not found. -/
def notFoundMsg (ref : Str) : Str :=
  "Node ".toList ++ [squote] ++ ref ++ [squote] ++ " not found".toList

/-- `CommandHandler.executeRenameCommand`: fails (returning false, reporting
only through the error callback) when the node is not found or the new label
is empty; otherwise invokes only the rename callback. -/
def executeRenameCommand (oldId newLabel : Str) (nodes : List UINode) :
    Bool × List CbEvent :=
  match findNode oldId nodes with
  | none => (false, [.error (notFoundMsg oldId)])
  | some node =>
    if newLabel = [] then
      (false, [.error ("New label is required for rename command".toList)])
    else
      (true, [.renameNode node.id newLabel])

/-- `CommandHandler.executeLayoutCommand`: unconditionally invokes the layout
callback with the kind string and the node list, returning true. -/
def executeLayoutCommand (layoutType : Str) (nodes : List UINode) :
    Bool × List CbEvent :=
  (true, [.applyLayout layoutType nodes])

/-- `CommandHandler.executeStyleInspectorCommand`: fails through the error
callback when the node is not found; on success selects the node, applies
styles when nonempty style parameters were given, then opens the inspector. -/
def executeStyleInspectorCommand (nodeId params : Str) (nodes : List UINode) :
    Bool × List CbEvent :=
  match findNode nodeId nodes with
  | none => (false, [.error (notFoundMsg nodeId)])
  | some node =>
    let styleEvents : List CbEvent :=
      if params = [] then []
      else
        let styles := parseStyleParams params
        if styles.backgroundColor.isSome || styles.borderColor.isSome
            || styles.borderWidth.isSome then
          [.applyStyle node.id styles]
        else []
    (true, [.selectNode node.id] ++ styleEvents ++ [.openStyleInspector node.id])

/-- `CommandHandler.executeCommand`: dispatch on the command type. -/
def executeCommand (command : Command) (nodes : List UINode) : Bool × List CbEvent :=
  match command with
  | .rename oldId newLabel _ => executeRenameCommand oldId newLabel nodes
  | .layout layoutType _ => executeLayoutCommand layoutType nodes
  | .openStyleInspector nodeId params _ => executeStyleInspectorCommand nodeId params nodes

/-! ### SyntaxManager (the orchestrator) -/

/-- The `{nodes, edges, commands}` result of one parse call. -/
structure ParseResult where
  nodes : List Node
  edges : List Edge
  commands : List Command
deriving DecidableEq, Repr

/-- `SyntaxManager.parseLine`: tokenize the arrows; with arrows present,
restore quoted placeholders inside each extracted label, ensure the nodes and
build the edges; otherwise the whole line is one standalone node label. -/
def parseLine (qmap : List (Str × Str)) (st : PState) (line : Str) : PState :=
  let arrows := findArrows line
  let nodeLabels := extractNodeLabels line arrows
  if arrows.length > 0 then
    let restoredLabels := nodeLabels.map (restoreQuotedStrings qmap)
    let r := ensureNodes st restoredLabels
    { r.2 with edges := createEdgesFromArrows r.2.edges arrows r.1 }
  else
    (ensureNode st (restoreQuotedStrings qmap line)).2

/-- `SyntaxManager.parse`: the node and edge builders are cleared, the
session `IDManager` is carried over; commands are extracted from the raw
line-split input, then quoted strings are masked, then each trimmed nonempty
line is parsed.  Returns the parse result together with the updated
`IDManager` (the only state that outlives the call). -/
def SyntaxManager.parse (idm : IDManager) (input : Str) : ParseResult × IDManager :=
  let ec := extractCommand input
  let pq := extractQuotedStrings ec.2
  let lines := ((jsSplit '\n' pq.1).map jsTrim).filter (fun l => decide (0 < l.length))
  let st0 : PState := { idm := idm, nodes := [], nodeOrder := [], edges := [] }
  let stF := lines.foldl (parseLine pq.2) st0
  ({ nodes := stF.nodes.map Prod.snd, edges := stF.edges, commands := ec.1 }, stF.idm)

/-! ### Spec-side and invariant definitions -/

/-- The session invariant of the identifier manager: the ids stored in
`nodeIdToNumber`, read in insertion (first-appearance) order, are exactly
`1, 2, ..., n`; the counter sits at `n + 1`; and the two maps are mutual
inverses. -/
def IdmInv (m : IDManager) : Prop :=
  m.nodeIdToNumber.map Prod.snd = List.range' 1 m.nodeIdToNumber.length
  ∧ m.nextId = m.nodeIdToNumber.length + 1
  ∧ ∀ l i, jsMapGet m.nodeIdToNumber l = some i ↔ jsMapGet m.numberToNodeId i = some l

/-- `m'` keeps every label→id assignment of `m`. -/
def IdmExtends (m m' : IDManager) : Prop :=
  ∀ l i, jsMapGet m.nodeIdToNumber l = some i → jsMapGet m'.nodeIdToNumber l = some i

/-- One pipeline step either leaves the manager alone or performs an
`assignId`; both preserve the invariant and extend the assignments. -/
def IdmStepOk (m m' : IDManager) : Prop :=
  (IdmInv m → IdmInv m') ∧ IdmExtends m m'

/-- The direction-relevant content of an edge. -/
def edgeProj (e : Edge) : Str × Str × Option Str := (e.source, e.target, e.label)

/-- The source/target/label content an arrow of a given direction contributes
between labels `n1` and `n2` (claim C4's wording of the direction rule). -/
def dirPairs (a : Arrow) (n1 n2 : Str) : List (Str × Str × Option Str) :=
  match a.direction with
  | .forward => [(n1, n2, a.edgeLabel)]
  | .backward => [(n2, n1, a.edgeLabel)]
  | .bidirectional => [(n1, n2, a.edgeLabel), (n2, n1, a.edgeLabel)]

/-- Modelled from the spec's wording of the arrow direction rule: for arrow
`i`, its direction's edge content is built between extracted labels `i` and
`i+1`, skipping missing or empty labels. -/
def pairwiseEdgeSpec : List Arrow → List Str → List (Str × Str × Option Str)
  | [], _ => []
  | a :: rest, names =>
    (match names with
     | n1 :: n2 :: _ => if n1 = [] ∨ n2 = [] then [] else dirPairs a n1 n2
     | _ => []) ++ pairwiseEdgeSpec rest names.tail

/-! ### Association list lemmas (for the `IDManager` invariants) -/

theorem jsMapGet_nil [DecidableEq α] (k : α) : jsMapGet ([] : List (α × β)) k = none := rfl

theorem jsMapGet_cons [DecidableEq α] (k k' : α) (v' : β) (m : List (α × β)) :
    jsMapGet ((k', v') :: m) k = if k' = k then some v' else jsMapGet m k := by
  by_cases h : k' = k <;> simp [jsMapGet, List.find?, h]

theorem jsMapSet_absent [DecidableEq α] (m : List (α × β)) (k : α) (v : β)
    (h : jsMapGet m k = none) : jsMapSet m k v = m ++ [(k, v)] := by
  induction m with
  | nil => rfl
  | cons p rest ih =>
    rw [jsMapGet_cons] at h
    by_cases hk : p.1 = k
    · simp [hk] at h
    · simp only [hk, if_false] at h
      simp [jsMapSet, hk, ih h]

theorem jsMapGet_append_of_some [DecidableEq α] {m : List (α × β)} {k' : α} {w : β}
    (k : α) (v : β) (h : jsMapGet m k' = some w) :
    jsMapGet (m ++ [(k, v)]) k' = some w := by
  induction m with
  | nil => simp [jsMapGet_nil] at h
  | cons p rest ih =>
    rw [jsMapGet_cons] at h
    rw [List.cons_append, jsMapGet_cons]
    by_cases hk : p.1 = k'
    · simpa [hk] using h
    · simp only [hk, if_false] at h ⊢
      exact ih h

theorem jsMapGet_append_of_none [DecidableEq α] {m : List (α × β)} {k' : α}
    (k : α) (v : β) (h : jsMapGet m k' = none) :
    jsMapGet (m ++ [(k, v)]) k' = if k = k' then some v else none := by
  induction m with
  | nil => simp [jsMapGet_nil, jsMapGet_cons]
  | cons p rest ih =>
    rw [jsMapGet_cons] at h
    rw [List.cons_append, jsMapGet_cons]
    by_cases hk : p.1 = k'
    · simp [hk] at h
    · simp only [hk, if_false] at h ⊢
      exact ih h

theorem jsMapGet_mem_snd [DecidableEq α] (m : List (α × β)) (k : α) (v : β)
    (h : jsMapGet m k = some v) : v ∈ m.map Prod.snd := by
  induction m with
  | nil => simp [jsMapGet_nil] at h
  | cons p rest ih =>
    rw [jsMapGet_cons] at h
    by_cases hk : p.1 = k
    · simp only [hk, if_true] at h
      simp [Option.some.inj h]
    · simp only [hk, if_false] at h
      simp [ih h]

/-! ### Decimal rendering lemmas (injectivity of the quoted-string
placeholders) -/

theorem digitsToNat_snoc (b : Nat) (ds : Str) (c : Char) :
    digitsToNat b (ds ++ [c]) = digitsToNat b ds * b + digitVal c := by
  simp [digitsToNat, List.foldl_append]

theorem digitVal_digitChar (n : Nat) (h : n < 10) :
    digitVal (Char.ofNat ('0'.toNat + n)) = n := by
  interval_cases n <;> decide

theorem digitsToNat_natToStrAux (fuel n : Nat) (h : n < fuel) :
    digitsToNat 10 (natToStrAux fuel n) = n := by
  induction fuel generalizing n with
  | zero => omega
  | succ fuel ih =>
    by_cases h10 : n < 10
    · simp only [natToStrAux, if_pos h10]
      simpa [digitsToNat] using digitVal_digitChar n h10
    · have hdiv : n / 10 < fuel := by
        have := Nat.div_lt_self (by omega : 0 < n) (by omega : 1 < 10)
        omega
      simp only [natToStrAux, if_neg h10]
      rw [digitsToNat_snoc, ih _ hdiv, digitVal_digitChar _ (Nat.mod_lt n (by omega))]
      omega

theorem natToStr_inj : Function.Injective natToStr := by
  intro n m h
  have hn := digitsToNat_natToStrAux (n + 1) n (Nat.lt_succ_self n)
  have hm := digitsToNat_natToStrAux (m + 1) m (Nat.lt_succ_self m)
  rw [← hn, ← hm]
  simp only [natToStr] at h
  rw [h]

theorem phName_inj : Function.Injective phName := by
  intro n m h
  exact natToStr_inj (List.append_cancel_left h)

/-- The placeholder keys produced by the quoted-string scanner are exactly
`phName counter, phName (counter+1), ...`. -/
theorem extractQSGo_keys (fuel : Nat) :
    ∀ (counter : Nat) (s : Str),
      ∃ k, (extractQSGo fuel counter s).2.map Prod.fst = (List.range' counter k).map phName := by
  induction fuel with
  | zero => intro counter s; exact ⟨0, rfl⟩
  | succ fuel ih =>
    intro counter s
    cases s with
    | nil => exact ⟨0, rfl⟩
    | cons c rest =>
      simp only [extractQSGo]
      split
      · split
        · obtain ⟨k, hk⟩ := ih (counter + 1)
            ((rest.drop (rest.takeWhile (fun x => !(x == '"'))).length).tail)
          rw [List.tail_drop] at hk
          exact ⟨k + 1, by simp [List.range', hk]⟩
        · exact ⟨0, rfl⟩
      · obtain ⟨k, hk⟩ := ih counter rest
        exact ⟨k, by simpa using hk⟩

/-- Distinct quoted spans receive distinct placeholders. -/
theorem extract_keys_nodup (input : Str) :
    ((extractQuotedStrings input).2.map Prod.fst).Nodup := by
  obtain ⟨k, hk⟩ := extractQSGo_keys (input.length + 1) 0 input
  rw [extractQuotedStrings, hk]
  exact (List.nodup_range' 0 k).map phName_inj

/-! ### IDManager invariants -/

theorem idmExtends_refl (m : IDManager) : IdmExtends m m := fun _ _ h => h

theorem idmExtends_trans {m1 m2 m3 : IDManager}
    (h1 : IdmExtends m1 m2) (h2 : IdmExtends m2 m3) : IdmExtends m1 m3 :=
  fun l i h => h2 l i (h1 l i h)

theorem idmInv_empty : IdmInv IDManager.empty := by
  refine ⟨rfl, rfl, ?_⟩
  intro l i
  simp [IDManager.empty, jsMapGet_nil]

theorem assignId_extends (m : IDManager) (lbl : Str) : IdmExtends m (assignId m lbl).2 := by
  intro l i h
  unfold assignId
  cases hget : jsMapGet m.nodeIdToNumber lbl with
  | some id => simpa using h
  | none =>
    simp only []
    rw [jsMapSet_absent _ _ _ hget]
    exact jsMapGet_append_of_some _ _ h

theorem assignId_inv (m : IDManager) (lbl : Str) (hm : IdmInv m) :
    IdmInv (assignId m lbl).2 := by
  obtain ⟨hrange, hnext, hinv⟩ := hm
  unfold assignId
  cases hget : jsMapGet m.nodeIdToNumber lbl with
  | some id => exact ⟨hrange, hnext, hinv⟩
  | none =>
    simp only []
    have hlabelget : jsMapGet m.numberToNodeId m.nextId = none := by
      cases hl : jsMapGet m.numberToNodeId m.nextId with
      | none => rfl
      | some l' =>
        have : jsMapGet m.nodeIdToNumber l' = some m.nextId := (hinv l' m.nextId).mpr hl
        have hmem := jsMapGet_mem_snd _ _ _ this
        rw [hrange, List.mem_range'_1, hnext] at hmem
        omega
    rw [jsMapSet_absent _ _ _ hget, jsMapSet_absent _ _ _ hlabelget]
    refine ⟨?_, ?_, ?_⟩
    · rw [List.map_append, hrange, List.length_append, hnext]
      have h2 := List.range'_1_concat 1 m.nodeIdToNumber.length
      rw [Nat.add_comm 1 m.nodeIdToNumber.length] at h2
      simpa using h2.symm
    · simp [hnext]
    · intro l i
      cases hln : jsMapGet m.nodeIdToNumber l with
      | some j =>
        rw [jsMapGet_append_of_some lbl m.nextId hln]
        have hlab : jsMapGet m.numberToNodeId j = some l := (hinv l j).mp hln
        constructor
        · intro hj
          cases hj
          exact jsMapGet_append_of_some _ _ hlab
        · intro hi
          cases hil : jsMapGet m.numberToNodeId i with
          | some l'' =>
            rw [jsMapGet_append_of_some m.nextId lbl hil] at hi
            cases hi
            have := (hinv l i).mpr hil
            rw [hln] at this
            exact this
          | none =>
            rw [jsMapGet_append_of_none m.nextId lbl hil] at hi
            by_cases hii : m.nextId = i
            · subst hii
              simp only [if_pos rfl] at hi
              cases hi
              rw [hget] at hln
              cases hln
            · simp [hii] at hi
      | none =>
        rw [jsMapGet_append_of_none lbl m.nextId hln]
        constructor
        · intro hj
          by_cases hll : lbl = l
          · simp only [if_pos hll] at hj
            cases hj
            subst hll
            rw [jsMapGet_append_of_none m.nextId lbl hlabelget, if_pos rfl]
          · simp [hll] at hj
        · intro hi
          cases hil : jsMapGet m.numberToNodeId i with
          | some l'' =>
            rw [jsMapGet_append_of_some m.nextId lbl hil] at hi
            cases hi
            have := (hinv l i).mpr hil
            rw [hln] at this
            cases this
          | none =>
            rw [jsMapGet_append_of_none m.nextId lbl hil] at hi
            by_cases hii : m.nextId = i
            · subst hii
              simp only [if_pos rfl] at hi
              cases hi
              simp
            · simp [hii] at hi

theorem idmStepOk_refl (m : IDManager) : IdmStepOk m m := ⟨id, idmExtends_refl m⟩

theorem idmStepOk_trans {m1 m2 m3 : IDManager}
    (h1 : IdmStepOk m1 m2) (h2 : IdmStepOk m2 m3) : IdmStepOk m1 m3 :=
  ⟨fun h => h2.1 (h1.1 h), idmExtends_trans h1.2 h2.2⟩

theorem assignId_stepOk (m : IDManager) (lbl : Str) : IdmStepOk m (assignId m lbl).2 :=
  ⟨assignId_inv m lbl, assignId_extends m lbl⟩

theorem ensureNode_stepOk (st : PState) (l : Str) :
    IdmStepOk st.idm (ensureNode st l).2.idm := by
  unfold ensureNode
  simp only []
  split
  · exact idmStepOk_refl _
  · exact assignId_stepOk st.idm (jsTrim l)

theorem ensureNodes_stepOk (labels : List Str) :
    ∀ st : PState, IdmStepOk st.idm (ensureNodes st labels).2.idm := by
  induction labels with
  | nil => intro st; exact idmStepOk_refl _
  | cons l rest ih =>
    intro st
    exact idmStepOk_trans (ensureNode_stepOk st l) (ih (ensureNode st l).2)

theorem parseLine_stepOk (qmap : List (Str × Str)) (st : PState) (line : Str) :
    IdmStepOk st.idm (parseLine qmap st line).idm := by
  by_cases h : (findArrows line).length > 0
  · simp only [parseLine, if_pos h]
    exact ensureNodes_stepOk _ st
  · simp only [parseLine, if_neg h]
    exact ensureNode_stepOk st _

theorem foldl_parseLine_stepOk (qmap : List (Str × Str)) (lines : List Str) :
    ∀ st : PState, IdmStepOk st.idm (lines.foldl (parseLine qmap) st).idm := by
  induction lines with
  | nil => intro st; exact idmStepOk_refl _
  | cons l rest ih =>
    intro st
    exact idmStepOk_trans (parseLine_stepOk qmap st l) (ih (parseLine qmap st l))

theorem parse_stepOk (m : IDManager) (input : Str) :
    IdmStepOk m (SyntaxManager.parse m input).2 :=
  foldl_parseLine_stepOk (extractQuotedStrings (extractCommand input).2).2
    (((jsSplit '\n' (extractQuotedStrings (extractCommand input).2).1).map jsTrim).filter
      (fun l => decide (0 < l.length)))
    { idm := m, nodes := [], nodeOrder := [], edges := [] }

/-! ### Command extraction lemmas -/

/-- The extraction loop partitions the lines: commands in order, pass-through
lines in order. -/
theorem extractCommandGo_eq (ls : List Str) :
    extractCommandGo ls
      = (ls.filterMap detectCommand, ls.filter (fun l => (detectCommand l).isNone)) := by
  induction ls with
  | nil => rfl
  | cons l rest ih =>
    simp only [extractCommandGo, ih]
    cases h : detectCommand l with
    | some c => simp [List.filterMap_cons, List.filter_cons, h]
    | none => simp [List.filterMap_cons, List.filter_cons, h]

theorem extractCommand_eq (input : Str) :
    extractCommand input
      = ((jsSplit '\n' input).filterMap detectCommand,
         joinSep '\n' ((jsSplit '\n' input).filter (fun l => (detectCommand l).isNone))) := by
  rw [extractCommand, extractCommandGo_eq]

theorem parse_commands_eq (m : IDManager) (input : Str) :
    (SyntaxManager.parse m input).1.commands
      = (jsSplit '\n' input).filterMap detectCommand := by
  show (extractCommand input).1 = _
  rw [extractCommand_eq]

/-- A string that matched the equals pattern starts with an equals sign, so
the at-pattern cannot match it. -/
theorem matchEqualsCmd_at_none (s : Str) (r : Str × Str)
    (h : matchEqualsCmd s = some r) : atCommandMatch s = none := by
  unfold matchEqualsCmd at h
  split at h
  · rfl
  · cases h

/-- Characters survive `jsTrim` only if they were in the string. -/
theorem mem_jsTrim {c : Char} {s : Str} (h : c ∈ jsTrim s) : c ∈ s := by
  unfold jsTrim at h
  rw [List.mem_reverse] at h
  have h1 := List.dropWhile_sublist (l := (s.dropWhile jsIsSpace).reverse) (p := jsIsSpace)
  have h2 := h1.mem h
  rw [List.mem_reverse] at h2
  exact (List.dropWhile_sublist (l := s) (p := jsIsSpace)).mem h2

/-! ### Edge construction projection (for the arrow direction rule) -/

theorem createEdge_proj (es : List Edge) (s t : Str) (lbl : Option Str) :
    (createEdge es s t lbl).map edgeProj = es.map edgeProj ++ [(s, t, lbl)] := by
  simp [createEdge, edgeProj]

theorem addArrowEdges_proj (es : List Edge) (a : Arrow) (s t : Str) :
    (addArrowEdges es a s t).map edgeProj = es.map edgeProj ++ dirPairs a s t := by
  unfold addArrowEdges dirPairs
  cases a.direction <;> simp [createEdge_proj]

/-- `createEdgesFromArrows` implements the pairwise direction rule (up to the
synthetic edge ids, which `edgeProj` discards). -/
theorem createEdgesFromArrows_proj (arrows : List Arrow) :
    ∀ (names : List Str) (es : List Edge),
      (createEdgesFromArrows es arrows names).map edgeProj
        = es.map edgeProj ++ pairwiseEdgeSpec arrows names := by
  induction arrows with
  | nil => intro names es; simp [createEdgesFromArrows, pairwiseEdgeSpec]
  | cons a rest ih =>
    intro names es
    cases names with
    | nil =>
      show (createEdgesFromArrows es rest []).map edgeProj
          = es.map edgeProj ++ ([] ++ pairwiseEdgeSpec rest [])
      rw [ih]
      simp
    | cons n1 names' =>
      cases names' with
      | nil =>
        show (createEdgesFromArrows es rest []).map edgeProj
            = es.map edgeProj ++ ([] ++ pairwiseEdgeSpec rest [])
        rw [ih]
        simp
      | cons n2 names'' =>
        show (createEdgesFromArrows
                (if n1 = [] ∨ n2 = [] then es else addArrowEdges es a n1 n2)
                rest (n2 :: names'')).map edgeProj
            = es.map edgeProj
              ++ ((if n1 = [] ∨ n2 = [] then [] else dirPairs a n1 n2)
                  ++ pairwiseEdgeSpec rest (n2 :: names''))
        rw [ih]
        by_cases h : n1 = [] ∨ n2 = []
        · simp [h]
        · rw [if_neg h, if_neg h, addArrowEdges_proj]
          simp

/-! ### Claim theorems -/

/-- C1: parsing the six-line input with a fresh `SyntaxManager` yields exactly
the 4 nodes `start, login, dashboard, retry`, exactly 4 edges of which exactly
two carry the labels `Yes` and `No`, and exactly the 2 commands (rename of
`login` to `Login Page`, layout `decision`); the node keyed `login` is still
present. -/
theorem endToEnd_scenario :
    (SyntaxManager.parse IDManager.empty
        ("start->login\nlogin-Yes->dashboard\nlogin-No->retry\nretry->login\n=rename(login, Login Page)\n=layout(decision)".toList)).1.nodes.map
          Node.label
        = ["start".toList, "login".toList, "dashboard".toList, "retry".toList]
    ∧ (SyntaxManager.parse IDManager.empty
        ("start->login\nlogin-Yes->dashboard\nlogin-No->retry\nretry->login\n=rename(login, Login Page)\n=layout(decision)".toList)).1.edges.length
        = 4
    ∧ (SyntaxManager.parse IDManager.empty
        ("start->login\nlogin-Yes->dashboard\nlogin-No->retry\nretry->login\n=rename(login, Login Page)\n=layout(decision)".toList)).1.edges.filterMap
          Edge.label
        = ["Yes".toList, "No".toList]
    ∧ (SyntaxManager.parse IDManager.empty
        ("start->login\nlogin-Yes->dashboard\nlogin-No->retry\nretry->login\n=rename(login, Login Page)\n=layout(decision)".toList)).1.commands
        = [Command.rename ("login".toList) ("Login Page".toList)
             ("=rename(login, Login Page)".toList),
           Command.layout ("decision".toList) ("=layout(decision)".toList)]
    ∧ ("login".toList) ∈ (SyntaxManager.parse IDManager.empty
        ("start->login\nlogin-Yes->dashboard\nlogin-No->retry\nretry->login\n=rename(login, Login Page)\n=layout(decision)".toList)).1.nodes.map
          Node.id := by
  decide

/-- C3 (divergence witness): the live `ensureNode` does not resolve structural
`:`-references.  After a first parse assigns id 3 to `checkout` (recorded in
the manager), re-parsing the line `:3 -> done` against the same manager
produces a node whose label is literally `:3` and an edge from `:3` to
`done` — not an edge from `checkout`. -/
theorem structural_reference_not_resolved :
    jsMapGet (SyntaxManager.parse IDManager.empty
        ("a\nb\ncheckout".toList)).2.numberToNodeId 3 = some ("checkout".toList)
    ∧ (SyntaxManager.parse (SyntaxManager.parse IDManager.empty ("a\nb\ncheckout".toList)).2
        (":3 -> done".toList)).1.nodes.map Node.label
        = [":3".toList, "done".toList]
    ∧ (SyntaxManager.parse (SyntaxManager.parse IDManager.empty ("a\nb\ncheckout".toList)).2
        (":3 -> done".toList)).1.edges.map (fun e => (e.source, e.target))
        = [(":3".toList, "done".toList)] := by
  decide

/-- C4: edges are built pairwise between consecutive extracted labels using
each arrow's direction (the general refinement, stated up to the synthetic
edge ids), and the three concrete behaviours: `A<->B` yields the two opposite
edges, `A<-B` yields the single swapped edge, and `A -yes-> B -> C` yields
`(A,B,yes)` then `(B,C,null)`. -/
theorem arrow_direction_rule :
    (∀ (arrows : List Arrow) (names : List Str) (es : List Edge),
        (createEdgesFromArrows es arrows names).map edgeProj
          = es.map edgeProj ++ pairwiseEdgeSpec arrows names)
    ∧ (SyntaxManager.parse IDManager.empty ("A<->B".toList)).1.edges
        = [⟨"A-B-0".toList, "A".toList, "B".toList, none⟩,
           ⟨"B-A-1".toList, "B".toList, "A".toList, none⟩]
    ∧ (SyntaxManager.parse IDManager.empty ("A<-B".toList)).1.edges
        = [⟨"B-A-0".toList, "B".toList, "A".toList, none⟩]
    ∧ (SyntaxManager.parse IDManager.empty ("A -yes-> B -> C".toList)).1.edges
        = [⟨"A-B-0".toList, "A".toList, "B".toList, some ("yes".toList)⟩,
           ⟨"B-C-1".toList, "B".toList, "C".toList, none⟩] := by
  refine ⟨fun arrows names es => createEdgesFromArrows_proj arrows names es, ?_, ?_, ?_⟩
  · decide
  · decide
  · decide

/-- C6 (counterexample): the placeholder text is producible by user input —
`extractQuotedStrings` leaves a literal `__QUOTED_0` in the masked stream with
an empty span map, and parsing `"a"->__QUOTED_0` therefore restores the user's
literal token to `a`, yielding a self-loop on `a` instead of an edge to a
node labeled `__QUOTED_0`. -/
theorem quoted_placeholder_producible :
    extractQuotedStrings ("__QUOTED_0".toList) = ("__QUOTED_0".toList, [])
    ∧ (SyntaxManager.parse IDManager.empty ("\"a\"->__QUOTED_0".toList)).1.nodes.map Node.label
        = ["a".toList]
    ∧ (SyntaxManager.parse IDManager.empty ("\"a\"->__QUOTED_0".toList)).1.edges.map
        (fun e => (e.source, e.target))
        = [("a".toList, "a".toList)] := by
  decide

/-- C6 (amended): distinct quoted spans always receive distinct placeholders
(`__QUOTED_<n>`), and the quoted multi-line label example round-trips
exactly — parsing `"line1\nline2"->B` yields a node whose label is exactly
the two-line string and one edge from that node to `B`.  Restoration is
first-occurrence textual replacement iterated in insertion order, so it is
exact only while no placeholder occurs as a prefix of another and the input
holds no placeholder-shaped text: with 11 spans the span-1 replacement fires
inside the generated placeholder of span 10, corrupting that label (final two
conjuncts: the 11th quoted content `wanted` is replaced by span 1's content
`q` followed by the stray `0`, and never appears as a node). -/
theorem quoted_string_roundtrip :
    (∀ input : Str, ((extractQuotedStrings input).2.map Prod.fst).Nodup)
    ∧ (SyntaxManager.parse IDManager.empty ("\"line1\nline2\"->B".toList)).1.nodes.map Node.label
        = ["line1\nline2".toList, "B".toList]
    ∧ (SyntaxManager.parse IDManager.empty ("\"line1\nline2\"->B".toList)).1.edges.map edgeProj
        = [("line1\nline2".toList, "B".toList, none)]
    ∧ (SyntaxManager.parse IDManager.empty
        ("\"z0\"\n\"q\"\n\"z2\"\n\"z3\"\n\"z4\"\n\"z5\"\n\"z6\"\n\"z7\"\n\"z8\"\n\"z9\"\n\"wanted\"".toList)).1.nodes.map
          Node.label
        = ["z0".toList, "q".toList, "z2".toList, "z3".toList, "z4".toList, "z5".toList,
           "z6".toList, "z7".toList, "z8".toList, "z9".toList, "q0".toList]
    ∧ ("wanted".toList) ∉ (SyntaxManager.parse IDManager.empty
        ("\"z0\"\n\"q\"\n\"z2\"\n\"z3\"\n\"z4\"\n\"z5\"\n\"z6\"\n\"z7\"\n\"z8\"\n\"z9\"\n\"wanted\"".toList)).1.nodes.map
          Node.label := by
  refine ⟨extract_keys_nodup, ?_, ?_, ?_, ?_⟩
  · decide
  · decide
  · decide
  · decide

/-- C10: command detection runs line-by-line on the raw text before quote
masking: the command list of every parse equals the per-line detection over
the raw input's lines; consequently a `@`-line physically inside a multi-line
quoted label is extracted as a command and never appears in the restored
label. -/
theorem command_extraction_precedes_masking :
    (∀ (m : IDManager) (input : Str),
        (SyntaxManager.parse m input).1.commands
          = (jsSplit '\n' input).filterMap detectCommand)
    ∧ (SyntaxManager.parse IDManager.empty ("\"line1\n@cmd\nline2\"->B".toList)).1.commands
        = [Command.openStyleInspector ("cmd".toList) [] ("@cmd".toList)]
    ∧ (SyntaxManager.parse IDManager.empty ("\"line1\n@cmd\nline2\"->B".toList)).1.nodes.map
        Node.label
        = ["line1\nline2".toList, "B".toList] := by
  refine ⟨parse_commands_eq, ?_, ?_⟩
  · decide
  · decide

/-- C2: `parse` never resets the identifier maps — every assignment survives
every later parse; on every invariant-satisfying manager (the fresh manager
included) the ids read in first-appearance order are the consecutive integers
`1, 2, ..., n` with the counter at `n + 1` and the two maps mutual inverses,
and `assignId` and `parse` preserve all of this; concretely, parsing `A\nB`
and then `A\nB\nC` against the same manager keeps `A ↦ 1`, `B ↦ 2` and gives
`C ↦ 3`. -/
theorem numericId_session_stability :
    IdmInv IDManager.empty
    ∧ (∀ (m : IDManager) (lbl : Str), IdmInv m → IdmInv (assignId m lbl).2)
    ∧ (∀ (m : IDManager) (input : Str), IdmInv m → IdmInv (SyntaxManager.parse m input).2)
    ∧ (∀ (m : IDManager) (input : Str), IdmExtends m (SyntaxManager.parse m input).2)
    ∧ jsMapGet (SyntaxManager.parse IDManager.empty ("A\nB".toList)).2.nodeIdToNumber
        ("A".toList) = some 1
    ∧ jsMapGet (SyntaxManager.parse IDManager.empty ("A\nB".toList)).2.nodeIdToNumber
        ("B".toList) = some 2
    ∧ jsMapGet (SyntaxManager.parse (SyntaxManager.parse IDManager.empty ("A\nB".toList)).2
        ("A\nB\nC".toList)).2.nodeIdToNumber ("A".toList) = some 1
    ∧ jsMapGet (SyntaxManager.parse (SyntaxManager.parse IDManager.empty ("A\nB".toList)).2
        ("A\nB\nC".toList)).2.nodeIdToNumber ("B".toList) = some 2
    ∧ jsMapGet (SyntaxManager.parse (SyntaxManager.parse IDManager.empty ("A\nB".toList)).2
        ("A\nB\nC".toList)).2.nodeIdToNumber ("C".toList) = some 3 := by
  refine ⟨idmInv_empty, assignId_inv, ?_, ?_, ?_, ?_, ?_, ?_, ?_⟩
  · exact fun m input h => (parse_stepOk m input).1 h
  · exact fun m input => (parse_stepOk m input).2
  · decide
  · decide
  · decide
  · decide
  · decide

/-- C2 witness: the stability theorem applied to the fresh manager and a
concrete input. -/
theorem numericId_session_stability_witness :
    IdmInv (SyntaxManager.parse IDManager.empty ("A\nB".toList)).2 :=
  numericId_session_stability.2.2.1 IDManager.empty ("A\nB".toList)
    numericId_session_stability.1

theorem resolveReference_ok (m : IDManager) (rest : Str) (n : Int) (l : Str)
    (h1 : jsParseInt rest = some n) (h2 : intLookup m.numberToNodeId n = some l)
    (hne : l ≠ []) :
    resolveReference m (':' :: rest) = .ok l := by
  simp [resolveReference, h1, h2, hne]

/-- C7 (counterexample): an id mapped to the empty label is reachable —
parsing the line with an empty quoted label and an arrow assigns id 1 to the
empty string — and resolving `:1` then errors through the source's falsy
`!nodeLabel` test even though the id *is* mapped, refuting "returns the label
mapped to the parsed integer when that id is mapped" and the claimed
error-iff. -/
theorem resolveReference_falsy_label :
    jsMapGet (SyntaxManager.parse IDManager.empty ("\"\"->B".toList)).2.numberToNodeId 1
      = some []
    ∧ resolveReference (SyntaxManager.parse IDManager.empty ("\"\"->B".toList)).2
        (":1".toList) = .error ("Node with ID 1 not found".toList) := by
  exact ⟨by decide, by rfl⟩

/-- C7 (amended): `resolveReference` returns any non-`:` ref unchanged; a
`:`-ref whose remainder parses and whose id is mapped to a nonempty label
resolves to that label; it errors exactly when `parseInt` gives NaN, the
parsed id is unmapped, or the id is mapped to the empty (falsy) label;
resolving `:99` against a manager holding exactly 3 assignments errors (and
the method only reads the manager, which the embedding reflects by returning
no state). -/
theorem resolveReference_rule :
    (∀ (m : IDManager) (ref : Str), ref.head? ≠ some ':' → resolveReference m ref = .ok ref)
    ∧ (∀ (m : IDManager) (rest : Str) (n : Int) (l : Str),
        jsParseInt rest = some n → intLookup m.numberToNodeId n = some l → l ≠ [] →
        resolveReference m (':' :: rest) = .ok l)
    ∧ (∀ (m : IDManager) (rest : Str),
        (∃ msg, resolveReference m (':' :: rest) = .error msg)
          ↔ jsParseInt rest = none
            ∨ ∃ n, jsParseInt rest = some n
                ∧ (intLookup m.numberToNodeId n = none
                   ∨ intLookup m.numberToNodeId n = some []))
    ∧ resolveReference (SyntaxManager.parse IDManager.empty ("a\nb\nc".toList)).2
        (":99".toList) = .error ("Node with ID 99 not found".toList)
    ∧ (SyntaxManager.parse IDManager.empty ("a\nb\nc".toList)).2.nodeIdToNumber.length = 3 := by
  refine ⟨?_, resolveReference_ok, ?_, by rfl, by decide⟩
  · intro m ref h
    unfold resolveReference
    split
    · simp at h
    · rfl
  · intro m rest
    constructor
    · rintro ⟨msg, hmsg⟩
      cases hp : jsParseInt rest with
      | none => exact Or.inl rfl
      | some n =>
        cases hl : intLookup m.numberToNodeId n with
        | none => exact Or.inr ⟨n, rfl, Or.inl hl⟩
        | some l =>
          by_cases hl0 : l = []
          · subst hl0
            exact Or.inr ⟨n, rfl, Or.inr hl⟩
          · rw [resolveReference_ok m rest n l hp hl hl0] at hmsg
            cases hmsg
    · intro h
      rcases h with h | ⟨n, hn, hl | hl⟩
      · exact ⟨"Invalid ID reference: ".toList ++ ':' :: rest,
          by simp [resolveReference, h]⟩
      · exact ⟨"Node with ID ".toList ++ intToStr n ++ " not found".toList,
          by simp [resolveReference, hn, hl]⟩
      · exact ⟨"Node with ID ".toList ++ intToStr n ++ " not found".toList,
          by simp [resolveReference, hn, hl]⟩

/-- C7 witness: the rule applied at concrete inputs. -/
theorem resolveReference_rule_witness :
    resolveReference IDManager.empty ("plain".toList) = .ok ("plain".toList) :=
  resolveReference_rule.1 IDManager.empty ("plain".toList) (by decide)

/-- C8 (counterexample): a label that is no shape keyword does not always get
the default `rectangle` — `Constructor` lowercases to `constructor`, a
property name of `Object.prototype`, so the plain `shapeKeywords[lowerLabel]`
read inherits a truthy non-string value which survives the default and lands
in the node's shape type. -/
theorem shape_inherited_lookup :
    (SyntaxManager.parse IDManager.empty ("Constructor".toList)).1.nodes.map
        (fun n => (n.label, n.type))
      = [("Constructor".toList, NodeType.protoMember ("constructor".toList))] := by
  decide

/-- C8 (amended): the shape type is the matching keyword exactly when the
trimmed label is a case-insensitive full-string match of a reserved keyword
(`circle`, `square`, `rectangle`, `diamond`); every other label gets the
default `rectangle`, except labels whose lowercase equals a property name of
`Object.prototype` (e.g. `constructor`, `__proto__`), where the object lookup
inherits a truthy non-string value instead; concretely, parsing `CIRCLE`,
`circles`, `Circle Two` and `diamond` gives types `circle`, `rectangle`,
`rectangle`, `diamond`. -/
theorem shape_inference :
    (∀ t : Str, jsToLower t = "circle".toList → detectShapeType t = .str ("circle".toList))
    ∧ (∀ t : Str, jsToLower t = "square".toList → detectShapeType t = .str ("square".toList))
    ∧ (∀ t : Str,
        jsToLower t = "rectangle".toList → detectShapeType t = .str ("rectangle".toList))
    ∧ (∀ t : Str, jsToLower t = "diamond".toList → detectShapeType t = .str ("diamond".toList))
    ∧ (∀ t : Str,
        jsToLower t ∉ (["circle".toList, "square".toList,
          "rectangle".toList, "diamond".toList] : List Str) →
        jsToLower t ∉ objectProtoKeys →
        detectShapeType t = .str ("rectangle".toList))
    ∧ (SyntaxManager.parse IDManager.empty
        ("CIRCLE\ncircles\nCircle Two\ndiamond".toList)).1.nodes.map (fun n => (n.label, n.type))
      = [("CIRCLE".toList, .str ("circle".toList)),
         ("circles".toList, .str ("rectangle".toList)),
         ("Circle Two".toList, .str ("rectangle".toList)),
         ("diamond".toList, .str ("diamond".toList))] := by
  refine ⟨?_, ?_, ?_, ?_, ?_, by decide⟩
  · intro t h; simp [detectShapeType, shapeKeywordFor, h]
  · intro t h; simp [detectShapeType, shapeKeywordFor, h]
  · intro t h; simp [detectShapeType, shapeKeywordFor, h]
  · intro t h; simp [detectShapeType, shapeKeywordFor, h]
  · intro t h hp
    simp only [List.mem_cons, List.not_mem_nil, or_false] at h
    push_neg at h
    obtain ⟨h1, h2, h3, h4⟩ := h
    simp at h1 h2 h3 h4
    simp [detectShapeType, shapeKeywordFor, h1, h2, h3, h4, hp]

/-- C8 witness: the inference rule applied at a concrete label. -/
theorem shape_inference_witness :
    detectShapeType ("CIRCLE".toList) = .str ("circle".toList) :=
  shape_inference.1 ("CIRCLE".toList) (by decide)

/-- C9: a rename or select whose node reference does not resolve returns
false and fires only the error callback; a rename of a found node with an
empty new label likewise returns false firing only the error callback; a
layout command always returns true and fires the layout callback with its
kind string, whatever the kind. -/
theorem interpreter_failure_behavior :
    (∀ (nodes : List UINode) (o n r : Str), findNode o nodes = none →
        executeCommand (.rename o n r) nodes = (false, [.error (notFoundMsg o)]))
    ∧ (∀ (nodes : List UINode) (o r : Str) (node : UINode), findNode o nodes = some node →
        executeCommand (.rename o [] r) nodes
          = (false, [.error ("New label is required for rename command".toList)]))
    ∧ (∀ (nodes : List UINode) (i p r : Str), findNode i nodes = none →
        executeCommand (.openStyleInspector i p r) nodes = (false, [.error (notFoundMsg i)]))
    ∧ (∀ (nodes : List UINode) (k r : Str),
        executeCommand (.layout k r) nodes = (true, [.applyLayout k nodes])) := by
  refine ⟨?_, ?_, ?_, ?_⟩
  · intro nodes o n r h
    simp [executeCommand, executeRenameCommand, h]
  · intro nodes o r node h
    simp [executeCommand, executeRenameCommand, h]
  · intro nodes i p r h
    simp [executeCommand, executeStyleInspectorCommand, h]
  · intro nodes k r
    simp [executeCommand, executeLayoutCommand]

/-- C9 witness: the failure behaviour applied at concrete commands. -/
theorem interpreter_failure_behavior_witness :
    executeCommand (.rename ("x".toList) ("y".toList) ("=rename(x, y)".toList)) []
      = (false, [.error (notFoundMsg ("x".toList))]) :=
  interpreter_failure_behavior.1 [] ("x".toList) ("y".toList) ("=rename(x, y)".toList)
    (by decide)

theorem atBranch_isSome (s : Str) : (atBranch s).isSome = (atCommandMatch s).isSome := by
  unfold atBranch
  cases atCommandMatch s <;> rfl

theorem detectCommand_eqSome (line : Str) (r : Str × Str)
    (he : matchEqualsCmd (jsTrim line) = some r) :
    detectCommand line
      = if r.1 = "rename".toList then
          some (.rename ((eqArgs r.2).headD []) (((eqArgs r.2).drop 1).headD []) (jsTrim line))
        else if r.1 = "layout".toList then
          some (.layout
            (if (eqArgs r.2).headD [] = [] then "tree".toList else (eqArgs r.2).headD [])
            (jsTrim line))
        else atBranch (jsTrim line) := by
  unfold detectCommand
  rw [he]

theorem detectCommand_eqNone (line : Str) (he : matchEqualsCmd (jsTrim line) = none) :
    detectCommand line = atBranch (jsTrim line) := by
  unfold detectCommand
  rw [he]

theorem matchEqualsCmd_head (s : Str) (r : Str × Str) (h : matchEqualsCmd s = some r) :
    ∃ t, s = '=' :: t := by
  unfold matchEqualsCmd at h
  split at h
  · rename_i rest
    exact ⟨rest, rfl⟩
  · cases h

theorem atCommandMatch_isSome_iff (s : Str) (hn : '\n' ∉ s) (hr : '\r' ∉ s) :
    (atCommandMatch s).isSome = true
      ↔ ∃ c rest, s = '@' :: c :: rest ∧ jsIsSpace c = false := by
  cases s with
  | nil => simp [atCommandMatch]
  | cons a tail =>
    by_cases ha : a = '@'
    · subst ha
      have hany : tail.any (fun c => c == '\n' || c == '\r') = false := by
        rw [List.any_eq_false]
        intro x hx
        have hxn : x ≠ '\n' := fun hx' => hn (hx' ▸ List.mem_cons_of_mem _ hx)
        have hxr : x ≠ '\r' := fun hx' => hr (hx' ▸ List.mem_cons_of_mem _ hx)
        simp [hxn, hxr]
      cases tail with
      | nil => simp [atCommandMatch, hany]
      | cons c rest =>
        by_cases hc : jsIsSpace c
        · simp [atCommandMatch, hany, List.takeWhile_cons, hc]
        · simp [atCommandMatch, hany, List.takeWhile_cons, hc]
    · have hnone : atCommandMatch (a :: tail) = none := by
        unfold atCommandMatch
        split
        · rename_i heq
          cases heq
          exact absurd rfl ha
        · rfl
      simp [hnone, ha]

/-- C5 (amended): a line is removed from the structural stream and converted
to exactly one command iff its trimmed form starts with `@` followed by a
non-whitespace character, or matches `=<name>(<args>)` with name `rename` or
`layout` (other names pass through to the structural stream); extraction
partitions the lines preserving order; equals-command arguments are split on
commas and trimmed; `@node1` produces only a command, never a node or
edge. -/
theorem command_line_extraction :
    (∀ input : Str,
        extractCommand input
          = ((jsSplit '\n' input).filterMap detectCommand,
             joinSep '\n' ((jsSplit '\n' input).filter (fun l => (detectCommand l).isNone))))
    ∧ (∀ line : Str, '\n' ∉ line → '\r' ∉ line →
        ((detectCommand line).isSome = true
          ↔ (∃ c rest, jsTrim line = '@' :: c :: rest ∧ jsIsSpace c = false)
            ∨ ∃ r, matchEqualsCmd (jsTrim line) = some r
                ∧ (r.1 = "rename".toList ∨ r.1 = "layout".toList)))
    ∧ detectCommand ("=rename( login , Login Page )".toList)
        = some (.rename ("login".toList) ("Login Page".toList)
            ("=rename( login , Login Page )".toList))
    ∧ detectCommand ("=layout(decision)".toList)
        = some (.layout ("decision".toList) ("=layout(decision)".toList))
    ∧ detectCommand ("@node1".toList)
        = some (.openStyleInspector ("node1".toList) [] ("@node1".toList))
    ∧ (SyntaxManager.parse IDManager.empty ("@node1\nX->Y".toList)).1.nodes.map Node.label
        = ["X".toList, "Y".toList]
    ∧ (SyntaxManager.parse IDManager.empty ("@node1\nX->Y".toList)).1.edges.map edgeProj
        = [("X".toList, "Y".toList, none)]
    ∧ (SyntaxManager.parse IDManager.empty ("@node1\nX->Y".toList)).1.commands
        = [.openStyleInspector ("node1".toList) [] ("@node1".toList)] := by
  refine ⟨extractCommand_eq, ?_, by decide, by decide, by decide, by decide, by decide,
    by decide⟩
  intro line hn hr
  have hn' : '\n' ∉ jsTrim line := fun h => hn (mem_jsTrim h)
  have hr' : '\r' ∉ jsTrim line := fun h => hr (mem_jsTrim h)
  cases he : matchEqualsCmd (jsTrim line) with
  | some r =>
    have hat := matchEqualsCmd_at_none _ _ he
    obtain ⟨t, ht⟩ := matchEqualsCmd_head _ _ he
    rw [detectCommand_eqSome line r he]
    by_cases h1 : r.1 = "rename".toList
    · rw [if_pos h1]
      exact ⟨fun _ => Or.inr ⟨r, rfl, Or.inl h1⟩, fun _ => rfl⟩
    · by_cases h2 : r.1 = "layout".toList
      · rw [if_neg h1, if_pos h2]
        exact ⟨fun _ => Or.inr ⟨r, rfl, Or.inr h2⟩, fun _ => rfl⟩
      · rw [if_neg h1, if_neg h2, atBranch_isSome, hat]
        constructor
        · intro hfalse
          simp at hfalse
        · rintro (⟨c, rest, hceq, hcs⟩ | ⟨r', hr'eq, hname⟩)
          · rw [ht] at hceq
            cases hceq
          · cases hr'eq
            rcases hname with hname | hname
            · exact absurd hname h1
            · exact absurd hname h2
  | none =>
    rw [detectCommand_eqNone line he, atBranch_isSome]
    constructor
    · intro hsome
      exact Or.inl ((atCommandMatch_isSome_iff _ hn' hr').mp hsome)
    · rintro (hleft | ⟨r', hr'eq, _⟩)
      · exact (atCommandMatch_isSome_iff _ hn' hr').mpr hleft
      · cases hr'eq

/-- C5 (counterexample): an equals-command with a name other than `rename` or
`layout` is not extracted — the line `=foo(bar)` yields no command, is kept
in the structural stream, and produces a node. -/
theorem equals_command_other_name_passthrough :
    detectCommand ("=foo(bar)".toList) = none
    ∧ (SyntaxManager.parse IDManager.empty ("=foo(bar)".toList)).1.commands = []
    ∧ (SyntaxManager.parse IDManager.empty ("=foo(bar)".toList)).1.nodes.map Node.label
        = ["=foo(bar)".toList] := by
  decide

/-- C5 witness: the detection characterization applied at a concrete line. -/
theorem command_line_extraction_witness :
    (detectCommand ("@node1".toList)).isSome = true :=
  (command_line_extraction.2.1 ("@node1".toList) (by decide) (by decide)).mpr
    (Or.inl ⟨'n', "ode1".toList, by decide, by decide⟩)

end TQDraw
